import Mathlib

/-
Shallow embedding of the DeviceIQ backend coverage/analytics engine
(src/app.py) and a verification of the specification's claims about it.

Modelling conventions:
* A pandas DataFrame is a list of column names plus a list of rows, each row
  a list of cells in column order.  `read_csv` produces rectangular frames
  whose columns are homogeneous (a column is either parsed entirely as
  numbers or kept entirely as strings), so theorems assume rectangularity
  and homogeneity where the code relies on them.
* Machine floats are modelled as exact rationals.
* Python exceptions that escape the handler (pandas `KeyError` etc.) are
  modelled as `Except.error`; the explicit HTTP 400 rejections of the
  upload endpoint are modelled as a dedicated error type.
* `df.sort_values(by=..., ascending=False)` is modelled as a stable
  descending sort (what `kind='stable'` guarantees); the tie order of the
  default `kind='quicksort'` is not specified by pandas, which claim C3 is
  about.
-/

deriving instance DecidableEq for Except

namespace DeviceIQ

/-- A single cell of a data frame: a parsed number, a string, or a boolean
(booleans appear only in the internal `include_in_matrix` column). -/
inductive Cell where
  | num (q : ℚ)
  | str (s : String)
  | bool (b : Bool)
deriving DecidableEq, Repr

instance : Inhabited Cell := ⟨Cell.str ""⟩

/-- Test for cells holding a parsed number; the whole-column conjunction is
pandas' `is_numeric_dtype` check. -/
def Cell.isNum : Cell → Bool
  | .num _ => true
  | _ => false

/-- Numeric value of a cell; only meaningful on `Cell.num` cells (every use
is guarded by a numeric-dtype fact). -/
def cellRat : Cell → ℚ
  | .num q => q
  | _ => 0

/-- Addition of cells, as pandas `cumsum`/`sum` perform it: numbers add,
strings (object dtype) concatenate.  Mixed-type addition raises `TypeError`
in pandas; it is unreachable on frames produced by `read_csv`, whose dtype
inference never mixes parsed numbers and strings within one column. -/
def cellAdd : Cell → Cell → Cell
  | .num a, .num b => .num (a + b)
  | .str a, .str b => .str (a ++ b)
  | a, _ => a

/-- Code-point comparison of char lists, the order Python uses on `str`. -/
def charListLe : List Char → List Char → Bool
  | [], _ => true
  | _ :: _, [] => false
  | a :: as, b :: bs =>
    if a.toNat < b.toNat then true
    else if b.toNat < a.toNat then false
    else charListLe as bs

/-- Python string comparison (lexicographic by code point). -/
def strLe (a b : String) : Bool := charListLe a.data b.data

/-- Rank used to totalise the cell order across type mismatches.  pandas
raises on mixed-type comparisons; the rank branch is unreachable on
homogeneous (`read_csv`-produced) columns. -/
def cellRank : Cell → Nat
  | .num _ => 0
  | .str _ => 1
  | .bool _ => 2

/-- The order pandas sorting and `groupby` key sorting use on the values of
a homogeneous column: numeric order on numbers, Python string order on
strings. -/
def cellLe (a b : Cell) : Bool :=
  match a, b with
  | .num x, .num y => decide (x ≤ y)
  | .str x, .str y => strLe x y
  | .bool x, .bool y => decide (x ≤ y)
  | a, b => decide (cellRank a < cellRank b)

/-- Comparison of a cell with a numeric threshold, as in
`df['cumulative_coverage'] <= coverage_threshold`.  Comparing a
non-numeric column with a float raises in pandas; after validation the
column is numeric, so the other branches are unreachable. -/
def cellLeConst (c : Cell) (t : ℚ) : Bool :=
  match c with
  | .num q => decide (q ≤ t)
  | _ => false

/-- One row of a data frame, cells in column order. -/
abbrev Row := List Cell

/-- In-memory model of a pandas DataFrame. -/
structure DataFrame where
  cols : List String
  rows : List Row
deriving DecidableEq, Repr

/-- Rectangularity: every row has one cell per column.  Frames produced by
`read_csv` always satisfy this. -/
def DataFrame.Rect (df : DataFrame) : Prop :=
  ∀ r ∈ df.rows, r.length = df.cols.length

instance (df : DataFrame) : Decidable df.Rect := by
  unfold DataFrame.Rect; infer_instance

/-- Index of a column name in the frame's column list (the positional
realisation of pandas label lookup). -/
def colIdx (df : DataFrame) (name : String) : Nat :=
  df.cols.findIdx (fun c => decide (c = name))

/-- The values of one column, top to bottom (`df[name]`). -/
def colValues (df : DataFrame) (name : String) : List Cell :=
  df.rows.map (fun r => r.getD (colIdx df name) default)

/-- Column assignment `df[name] = vals`: pandas overwrites an existing column in place and
appends a new column at the end otherwise. -/
def setCol (df : DataFrame) (name : String) (vals : List Cell) : DataFrame :=
  if name ∈ df.cols then
    ⟨df.cols, (df.rows.zip vals).map (fun rv => rv.1.set (colIdx df name) rv.2)⟩
  else
    ⟨df.cols ++ [name], (df.rows.zip vals).map (fun rv => rv.1 ++ [rv.2])⟩

/-- Column projection `df[[names...]]`; raises `KeyError` on a missing
label. -/
def selectCols (df : DataFrame) (names : List String) : Except String DataFrame :=
  if names.all (fun n => decide (n ∈ df.cols)) then
    .ok ⟨names, df.rows.map (fun r => names.map (fun n => r.getD (colIdx df n) default))⟩
  else
    .error "KeyError: column not found"

/-- Boolean-mask row filter `df[df[name]]`. -/
def maskRows (df : DataFrame) (name : String) : DataFrame :=
  ⟨df.cols, df.rows.filter (fun r => decide (r.getD (colIdx df name) default = Cell.bool true))⟩

/-- The sort `df.sort_values(by=name, ascending=False)` (stable model, see header). -/
def sortValuesDesc (df : DataFrame) (name : String) : DataFrame :=
  ⟨df.cols,
   List.insertionSort
     (fun r1 r2 : Row =>
       cellLe (r2.getD (colIdx df name) default) (r1.getD (colIdx df name) default) = true)
     df.rows⟩

/-- Running sums of a cell list starting from `acc` (helper for `cumsumCells`). -/
def cumsumFrom (acc : Cell) : List Cell → List Cell
  | [] => []
  | c :: cs => cellAdd acc c :: cumsumFrom (cellAdd acc c) cs

/-- pandas `Series.cumsum`: the first entry is the first value, each later
entry adds the next value. -/
def cumsumCells : List Cell → List Cell
  | [] => []
  | c :: cs => c :: cumsumFrom c cs

/-- Rational mirror of `cumsumFrom`, used to reason about numeric columns. -/
def cumsumQFrom (acc : ℚ) : List ℚ → List ℚ
  | [] => []
  | u :: us => (acc + u) :: cumsumQFrom (acc + u) us

/-- Rational mirror of `cumsumCells`. -/
def cumsumQ : List ℚ → List ℚ
  | [] => []
  | u :: us => u :: cumsumQFrom u us

/-- Sum of a column read as rationals (`df[name].sum()` on a numeric
column). -/
def sumColQ (df : DataFrame) (name : String) : ℚ :=
  ((colValues df name).map cellRat).sum

/-- Round half to even at integer precision, the tie rule of Python's
`round`. -/
def roundHalfEven (q : ℚ) : ℤ :=
  if q - ⌊q⌋ < 1/2 then ⌊q⌋
  else if (1:ℚ)/2 < q - ⌊q⌋ then ⌊q⌋ + 1
  else if ⌊q⌋ % 2 = 0 then ⌊q⌋ else ⌊q⌋ + 1

/-- Python `round(x, 2)` on the exact-rational model of floats. -/
def round2 (q : ℚ) : ℚ := (roundHalfEven (q * 100) : ℚ) / 100

/-- The required input schema (`REQUIRED_COLUMNS` in app.py). -/
def REQUIRED : List String := ["device_model", "os_version", "usage_percent"]

/-- The required columns absent from the frame
(`REQUIRED_COLUMNS - set(df.columns)`). -/
def missingCols (df : DataFrame) : List String :=
  REQUIRED.filter (fun c => decide (c ∉ df.cols))

/-- pandas `is_numeric_dtype(df['usage_percent'])`: after `read_csv`, the
column has a numeric dtype exactly when every cell was parsed as a
number. -/
def usageNumeric (df : DataFrame) : Bool :=
  (colValues df "usage_percent").all Cell.isNum

/-- Typed failures of the upload endpoint.  `missingColumns` and
`usageNotNumeric` are the two explicit HTTP 400 validations; `internal`
models an escaping pandas exception (unreachable after validation). -/
inductive UploadError where
  | missingColumns (missing : List String)
  | usageNotNumeric
  | internal (msg : String)
deriving DecidableEq, Repr

/-- The summary block returned by the upload endpoint. -/
structure CoverageSummary where
  total_devices : Nat
  included_devices : Nat
  total_usage_percent : ℚ
  covered_usage_percent : ℚ
deriving DecidableEq, Repr

/-- The payload returned by the upload endpoint. -/
structure CoverageResult where
  matrix : DataFrame
  summary : CoverageSummary
deriving DecidableEq, Repr

/-- The four columns the coverage matrix is projected onto (app.py line 80). -/
def matrixCols : List String :=
  ["device_model", "os_version", "usage_percent", "cumulative_coverage"]

/-- app.py line 76: the frame sorted by usage descending. -/
def coverageSorted (df : DataFrame) : DataFrame := sortValuesDesc df "usage_percent"

/-- app.py line 77: add the `cumulative_coverage` column. -/
def coverageWithCum (df : DataFrame) : DataFrame :=
  setCol (coverageSorted df) "cumulative_coverage"
    (cumsumCells (colValues (coverageSorted df) "usage_percent"))

/-- app.py line 78: add the boolean `include_in_matrix` column. -/
def coverageWithFlag (df : DataFrame) (t : ℚ) : DataFrame :=
  setCol (coverageWithCum df) "include_in_matrix"
    ((colValues (coverageWithCum df) "cumulative_coverage").map
      (fun c => Cell.bool (cellLeConst c t)))

/-- app.py line 80, boolean mask step: keep the flagged rows. -/
def coverageMasked (df : DataFrame) (t : ℚ) : DataFrame :=
  maskRows (coverageWithFlag df t) "include_in_matrix"

/-- The coverage engine behind `POST /upload-csv/` (app.py lines 62-96):
validate the schema, validate the usage dtype, sort by usage descending,
compute the cumulative column and the inclusion flag, project the matrix
and build the summary. -/
def upload_csv (df : DataFrame) (coverage_threshold : ℚ) :
    Except UploadError CoverageResult :=
  if missingCols df ≠ [] then .error (.missingColumns (missingCols df))
  else if usageNumeric df = false then .error .usageNotNumeric
  else
    match selectCols (coverageMasked df coverage_threshold) matrixCols with
    | .error e => .error (.internal e)
    | .ok matrix =>
      .ok { matrix := matrix
            summary :=
              { total_devices := (coverageWithFlag df coverage_threshold).rows.length
                included_devices := matrix.rows.length
                total_usage_percent :=
                  round2 (sumColQ (coverageWithFlag df coverage_threshold) "usage_percent")
                covered_usage_percent := round2 (sumColQ matrix "usage_percent") } }

/-- The sorted rows paired with their cumulative coverage. -/
def coverageAnnotated (df : DataFrame) : List (Row × Cell) :=
  (coverageSorted df).rows.zip (cumsumCells (colValues (coverageSorted df) "usage_percent"))

/-- The sorted-and-annotated entries whose cumulative coverage passes the
threshold: exactly the entries the coverage matrix keeps. -/
def coverageIncluded (df : DataFrame) (t : ℚ) : List (Row × Cell) :=
  (coverageAnnotated df).filter (fun rc => cellLeConst rc.2 t)

/-- Projection of one selected entry onto the four matrix columns. -/
def matrixProjRow (df : DataFrame) (rc : Row × Cell) : Row :=
  [rc.1.getD (colIdx df "device_model") default,
   rc.1.getD (colIdx df "os_version") default,
   rc.1.getD (colIdx df "usage_percent") default,
   rc.2]

/-- The grouping keys the analytics endpoint recognises (app.py line 119). -/
def groupKeys : List String := ["device_model", "os_version", "os_major_version"]

/-- Characters before the first dot (helper for `osMajor`). -/
def osMajorChars : List Char → List Char
  | [] => []
  | c :: cs => if c = '.' then [] else c :: osMajorChars cs

/-- Leading dot-separated segment of a version string
(`.str.split('.').str[0]`): everything before the first `.`, or the whole
string when no dot occurs. -/
def osMajor (s : String) : String := ⟨osMajorChars s.data⟩

/-- Python `str()` of a cell, as `astype(str)` applies it.  Integral floats
and ints print without a fractional part in the inputs exercised here;
non-integral floats and booleans never reach this function in any theorem
below. -/
def cellToString : Cell → String
  | .str s => s
  | .num q => if q.den = 1 then toString q.num else toString q
  | .bool b => toString b

/-- pandas `'sum'` aggregation of a column slice: reduce with `+`, so
numbers add and object (string) values concatenate; the empty sum is 0. -/
def cellSumList : List Cell → Cell
  | [] => .num 0
  | c :: cs => cs.foldl cellAdd c

/-- First-appearance list of the distinct values of a list (helper;
`seen` accumulates the values already emitted). -/
def uniqueAux (seen : List Cell) : List Cell → List Cell
  | [] => []
  | c :: cs => if c ∈ seen then uniqueAux seen cs else c :: uniqueAux (c :: seen) cs

/-- The distinct values of a list in first-appearance order. -/
def uniqueList (l : List Cell) : List Cell := uniqueAux [] l

/-- Grouping `df.groupby(key, as_index=False).agg` summing usage_percent
(and the equivalent line-135 form): the result keeps only the key column
and the summed usage column, with the distinct key values sorted
ascending (pandas `groupby` defaults to `sort=True`); raises `KeyError`
if either label is missing. -/
def groupbySum (df : DataFrame) (key : String) : Except String DataFrame :=
  if key ∈ df.cols ∧ "usage_percent" ∈ df.cols then
    .ok ⟨[key, "usage_percent"],
      (List.insertionSort (fun a b : Cell => cellLe a b = true)
          (uniqueList (colValues df key))).map
        (fun k =>
          [k, cellSumList
                ((df.rows.filter
                    (fun r => decide (r.getD (colIdx df key) default = k))).map
                  (fun r => r.getD (colIdx df "usage_percent") default))])⟩
  else .error "KeyError: column not found"

/-- app.py lines 115-116: derive the `os_major_version` column (raises
`KeyError` when `os_version` is absent). -/
def addOsMajor (df : DataFrame) : Except String DataFrame :=
  if "os_version" ∈ df.cols then
    .ok (setCol df "os_major_version"
      ((colValues df "os_version").map (fun c => Cell.str (osMajor (cellToString c)))))
  else .error "KeyError: column not found"

/-- app.py lines 114-124: the grouping stage of the analytics endpoint.  A
key outside `groupKeys` (or no key) leaves the frame untouched. -/
def analyticsPrepared (key : Option String) (df : DataFrame) :
    Except String DataFrame :=
  match (if key = some "os_major_version" then addOsMajor df else .ok df) with
  | .error e => .error e
  | .ok df1 =>
    match key with
    | some k => if k ∈ groupKeys then groupbySum df1 k else .ok df1
    | none => .ok df1

/-- The payload returned by the analytics endpoint. -/
structure AnalyticsResult where
  usage_distribution : DataFrame
  cumulative_curve : DataFrame
  os_version_breakdown : DataFrame
deriving DecidableEq, Repr

/-- The analytics engine behind `POST /analytics/` (app.py lines 114-141):
optional grouping stage, usage distribution (descending sort), cumulative
curve (same sort annotated with the running sum, projected onto four
columns), and an os_version breakdown, in the evaluation order of the
source (so the first missing label determines the raised error). -/
def analytics (key : Option String) (df : DataFrame) :
    Except String AnalyticsResult :=
  match analyticsPrepared key df with
  | .error e => .error e
  | .ok df2 =>
    if "usage_percent" ∈ df2.cols then
      match selectCols
          (setCol (sortValuesDesc df2 "usage_percent") "cumulative_coverage"
            (cumsumCells (colValues (sortValuesDesc df2 "usage_percent") "usage_percent")))
          matrixCols with
      | .error e => .error e
      | .ok curve =>
        match groupbySum df2 "os_version" with
        | .error e => .error e
        | .ok g =>
          .ok ⟨sortValuesDesc df2 "usage_percent", curve, sortValuesDesc g "usage_percent"⟩
    else .error "KeyError: column not found"

/-! The sort contract, and concrete frames used by witnesses and
counterexamples -/

/-- The contract `sort_values(by='usage_percent', ascending=False)`
promises: some permutation of the rows that is descending in usage.
pandas gives no tie-order promise for the default `kind='quicksort'`. -/
def descUsageSortSpec (df : DataFrame) (out : List Row) : Prop :=
  out.Perm df.rows ∧ out.Pairwise (fun r1 r2 =>
    cellLe (r2.getD (colIdx df "usage_percent") default)
      (r1.getD (colIdx df "usage_percent") default) = true)

/-- Scenario A of the spec: three devices with usages 60, 25, 15. -/
def dfScenarioA : DataFrame :=
  ⟨["device_model", "os_version", "usage_percent"],
   [[.str "X", .str "1.0", .num 60],
    [.str "Y", .str "1.0", .num 25],
    [.str "Z", .str "1.0", .num 15]]⟩

/-- Two rows with equal usage values, for the tie-order analysis. -/
def dfTie : DataFrame :=
  ⟨["device_model", "os_version", "usage_percent"],
   [[.str "A", .str "1.0", .num 50],
    [.str "B", .str "2.0", .num 50]]⟩

/-- A dataset whose usage_percent column failed numeric parsing
(object dtype holding strings). -/
def dfBadUsage : DataFrame :=
  ⟨["device_model", "os_version", "usage_percent"],
   [[.str "A", .str "1.0", .str "abc"]]⟩

/-- A dataset missing the device_model column. -/
def dfNoModel : DataFrame :=
  ⟨["os_version", "usage_percent"], [[.str "1.0", .num 60]]⟩

/-- Grouping demo: the os_version values appear in the order b, a. -/
def dfGroupOrder : DataFrame :=
  ⟨["device_model", "os_version", "usage_percent"],
   [[.str "P", .str "b", .num 30],
    [.str "Q", .str "a", .num 20]]⟩

/-- A minimal valid dataset. -/
def dfOneRow : DataFrame :=
  ⟨["device_model", "os_version", "usage_percent"],
   [[.str "A", .str "1.0", .num 60]]⟩

/-- Three devices across two os_versions, usages 60/25/15. -/
def dfThree : DataFrame :=
  ⟨["device_model", "os_version", "usage_percent"],
   [[.str "X", .str "1.0", .num 60],
    [.str "Y", .str "1.0", .num 25],
    [.str "Z", .str "2.0", .num 15]]⟩

/-- What grouping `dfThree` by os_version produces. -/
def dfThreeGrouped : DataFrame :=
  ⟨["os_version", "usage_percent"],
   [[.str "1.0", .num 85], [.str "2.0", .num 15]]⟩

/-- Duplicate device_model values for the grouping-sum witness. -/
def dfDupModel : DataFrame :=
  ⟨["device_model", "os_version", "usage_percent"],
   [[.str "A", .str "1.0", .num 30],
    [.str "A", .str "2.0", .num 20],
    [.str "B", .str "1.0", .num 10]]⟩

/-- A valid dataset with an extra descriptive column. -/
def dfExtra : DataFrame :=
  ⟨["device_model", "os_version", "usage_percent", "region"],
   [[.str "X", .str "1.0", .num 60, .str "eu"],
    [.str "Y", .str "1.0", .num 40, .str "us"]]⟩

/-! Helper lemmas about cells -/

theorem cellAdd_num (a b : ℚ) : cellAdd (.num a) (.num b) = .num (a + b) := rfl

theorem foldl_cellAdd_num (l : List Cell) (hl : ∀ c ∈ l, c.isNum = true) :
    ∀ a : ℚ, l.foldl cellAdd (.num a) = .num (a + (l.map cellRat).sum) := by
  induction l with
  | nil => intro a; simp
  | cons c cs ih =>
    intro a
    obtain ⟨q, rfl⟩ : ∃ q, c = .num q := by
      cases c with
      | num q => exact ⟨q, rfl⟩
      | str s => simp [Cell.isNum] at hl
      | bool b => simp [Cell.isNum] at hl
    have hcs : ∀ x ∈ cs, x.isNum = true := fun x hx => hl x (List.mem_cons_of_mem _ hx)
    simp only [List.foldl_cons, cellAdd_num, ih hcs, List.map_cons, List.sum_cons, cellRat]
    ring_nf

theorem cellSumList_num (l : List Cell) (hl : ∀ c ∈ l, c.isNum = true) :
    cellSumList l = .num ((l.map cellRat).sum) := by
  cases l with
  | nil => simp [cellSumList]
  | cons c cs =>
    obtain ⟨q, rfl⟩ : ∃ q, c = .num q := by
      cases c with
      | num q => exact ⟨q, rfl⟩
      | str s => simp [Cell.isNum] at hl
      | bool b => simp [Cell.isNum] at hl
    have hcs : ∀ x ∈ cs, x.isNum = true := fun x hx => hl x (List.mem_cons_of_mem _ hx)
    simp [cellSumList, foldl_cellAdd_num cs hcs q, cellRat]

theorem isNum_exists_num {c : Cell} (h : c.isNum = true) : ∃ q, c = .num q := by
  cases c with
  | num q => exact ⟨q, rfl⟩
  | str s => simp [Cell.isNum] at h
  | bool b => simp [Cell.isNum] at h

/-! The Python string order is total and transitive -/

theorem charListLe_total : ∀ as bs : List Char, charListLe as bs = true ∨ charListLe bs as = true := by
  intro as
  induction as with
  | nil => intro bs; left; rfl
  | cons a as ih =>
    intro bs
    cases bs with
    | nil => right; rfl
    | cons b bs =>
      by_cases hab : a.toNat < b.toNat
      · left; simp [charListLe, hab]
      · by_cases hba : b.toNat < a.toNat
        · right; simp [charListLe, hba]
        · rcases ih bs with h | h
          · left; simp [charListLe, hab, hba, h]
          · right; simp [charListLe, hba, hab, h]

theorem charListLe_trans : ∀ as bs cs : List Char,
    charListLe as bs = true → charListLe bs cs = true → charListLe as cs = true := by
  intro as
  induction as with
  | nil => intro bs cs _ _; rfl
  | cons a as ih =>
    intro bs cs hab hbc
    cases bs with
    | nil => simp [charListLe] at hab
    | cons b bs =>
      cases cs with
      | nil => simp [charListLe] at hbc
      | cons c cs =>
        simp only [charListLe] at hab hbc ⊢
        by_cases h1 : a.toNat < b.toNat
        · by_cases h2 : b.toNat < c.toNat
          · simp [Nat.lt_trans h1 h2]
          · by_cases h3 : c.toNat < b.toNat
            · simp [h2, h3] at hbc
            · have : b.toNat = c.toNat := Nat.le_antisymm (Nat.le_of_not_lt h3) (Nat.le_of_not_lt h2)
              simp [this ▸ h1]
        · by_cases h1' : b.toNat < a.toNat
          · rw [if_neg h1, if_pos h1'] at hab
            exact absurd hab (by simp)
          · have hab' : a.toNat = b.toNat := Nat.le_antisymm (Nat.le_of_not_lt h1') (Nat.le_of_not_lt h1)
            rw [if_neg h1, if_neg h1'] at hab
            by_cases h2 : b.toNat < c.toNat
            · simp [hab' ▸ h2]
            · by_cases h3 : c.toNat < b.toNat
              · simp [h2, h3] at hbc
              · rw [if_neg h2, if_neg h3] at hbc
                have h2' : ¬ a.toNat < c.toNat := hab' ▸ h2
                have h3' : ¬ c.toNat < a.toNat := hab' ▸ h3
                rw [if_neg h2', if_neg h3']
                exact ih bs cs hab hbc

theorem cellLe_total : ∀ a b : Cell, cellLe a b = true ∨ cellLe b a = true := by
  intro a b
  cases a with
  | num x =>
    cases b with
    | num y =>
      rcases le_total x y with h | h
      · left; simp [cellLe, h]
      · right; simp [cellLe, h]
    | str s => left; rfl
    | bool v => left; rfl
  | str s =>
    cases b with
    | num y => right; rfl
    | str t =>
      rcases charListLe_total s.data t.data with h | h
      · left; simpa [cellLe, strLe] using h
      · right; simpa [cellLe, strLe] using h
    | bool v => left; rfl
  | bool u =>
    cases b with
    | num y => right; rfl
    | str t => right; rfl
    | bool v =>
      rcases Bool.le_total u v with h | h
      · left; simp [cellLe, h]
      · right; simp [cellLe, h]

theorem cellLe_trans : ∀ a b c : Cell,
    cellLe a b = true → cellLe b c = true → cellLe a c = true := by
  intro a b c hab hbc
  cases a <;> cases b <;> cases c <;>
    simp_all [cellLe, strLe, cellRank] <;>
    first
      | exact le_trans hab hbc
      | exact charListLe_trans _ _ _ hab hbc

instance : IsTotal Cell (fun a b => cellLe a b = true) := ⟨cellLe_total⟩

instance : IsTrans Cell (fun a b => cellLe a b = true) := ⟨fun a b c => cellLe_trans a b c⟩

/-! First-appearance distinct values -/

theorem mem_uniqueAux (a : Cell) :
    ∀ (l seen : List Cell), a ∈ uniqueAux seen l ↔ a ∈ l ∧ a ∉ seen := by
  intro l
  induction l with
  | nil => intro seen; simp [uniqueAux]
  | cons c cs ih =>
    intro seen
    by_cases hc : c ∈ seen
    · rw [uniqueAux, if_pos hc, ih]
      constructor
      · rintro ⟨h1, h2⟩; exact ⟨List.mem_cons_of_mem _ h1, h2⟩
      · rintro ⟨h1, h2⟩
        rcases List.mem_cons.1 h1 with rfl | h1
        · exact absurd hc h2
        · exact ⟨h1, h2⟩
    · rw [uniqueAux, if_neg hc]
      constructor
      · intro h
        rcases List.mem_cons.1 h with rfl | h
        · exact ⟨List.mem_cons_self _ _, hc⟩
        · rw [ih] at h
          refine ⟨List.mem_cons_of_mem _ h.1, fun hs => h.2 (List.mem_cons_of_mem _ hs)⟩
      · rintro ⟨h1, h2⟩
        rcases List.mem_cons.1 h1 with rfl | h1
        · exact List.mem_cons_self _ _
        · by_cases hac : a = c
          · subst hac; exact List.mem_cons_self _ _
          · refine List.mem_cons_of_mem _ ?_
            rw [ih]
            exact ⟨h1, fun hs => by
              rcases List.mem_cons.1 hs with h | h
              · exact hac h
              · exact h2 h⟩

theorem mem_uniqueList (a : Cell) (l : List Cell) : a ∈ uniqueList l ↔ a ∈ l := by
  rw [uniqueList, mem_uniqueAux]
  simp

theorem nodup_uniqueAux : ∀ (l seen : List Cell), (uniqueAux seen l).Nodup := by
  intro l
  induction l with
  | nil => intro seen; simp [uniqueAux]
  | cons c cs ih =>
    intro seen
    by_cases hc : c ∈ seen
    · rw [uniqueAux, if_pos hc]; exact ih seen
    · rw [uniqueAux, if_neg hc, List.nodup_cons]
      refine ⟨fun h => ?_, ih (c :: seen)⟩
      rw [mem_uniqueAux] at h
      exact h.2 (List.mem_cons_self _ _)

theorem nodup_uniqueList (l : List Cell) : (uniqueList l).Nodup := nodup_uniqueAux l []

/-! Cumulative sums -/

theorem length_cumsumFrom (acc : Cell) (l : List Cell) :
    (cumsumFrom acc l).length = l.length := by
  induction l generalizing acc with
  | nil => rfl
  | cons c cs ih => simp [cumsumFrom, ih]

theorem length_cumsumCells (l : List Cell) : (cumsumCells l).length = l.length := by
  cases l with
  | nil => rfl
  | cons c cs => simp [cumsumCells, length_cumsumFrom]

theorem cumsumFrom_num : ∀ (l : List Cell), (∀ c ∈ l, c.isNum = true) →
    ∀ a : ℚ, cumsumFrom (.num a) l = (cumsumQFrom a (l.map cellRat)).map Cell.num := by
  intro l
  induction l with
  | nil => intro _ a; rfl
  | cons c cs ih =>
    intro hl a
    obtain ⟨q, rfl⟩ := isNum_exists_num (hl c (List.mem_cons_self _ _))
    have hcs : ∀ x ∈ cs, x.isNum = true := fun x hx => hl x (List.mem_cons_of_mem _ hx)
    simp [cumsumFrom, cumsumQFrom, cellAdd_num, ih hcs (a + q), cellRat]

theorem cumsumCells_num (l : List Cell) (hl : ∀ c ∈ l, c.isNum = true) :
    cumsumCells l = (cumsumQ (l.map cellRat)).map Cell.num := by
  cases l with
  | nil => rfl
  | cons c cs =>
    obtain ⟨q, rfl⟩ := isNum_exists_num (hl c (List.mem_cons_self _ _))
    have hcs : ∀ x ∈ cs, x.isNum = true := fun x hx => hl x (List.mem_cons_of_mem _ hx)
    simp [cumsumCells, cumsumQ, cumsumFrom_num cs hcs q, cellRat]

theorem le_of_mem_cumsumQFrom (acc : ℚ) (l : List ℚ) (hl : ∀ u ∈ l, 0 ≤ u) :
    ∀ x ∈ cumsumQFrom acc l, acc ≤ x := by
  induction l generalizing acc with
  | nil => intro x hx; simp [cumsumQFrom] at hx
  | cons u us ih =>
    intro x hx
    have hu : 0 ≤ u := hl u (List.mem_cons_self _ _)
    have hus : ∀ v ∈ us, 0 ≤ v := fun v hv => hl v (List.mem_cons_of_mem _ hv)
    rcases List.mem_cons.1 hx with rfl | hx
    · linarith
    · have := ih (acc + u) hus x hx
      linarith

theorem pairwise_cumsumQFrom (acc : ℚ) (l : List ℚ) (hl : ∀ u ∈ l, 0 ≤ u) :
    (cumsumQFrom acc l).Pairwise (· ≤ ·) := by
  induction l generalizing acc with
  | nil => exact List.Pairwise.nil
  | cons u us ih =>
    have hus : ∀ v ∈ us, 0 ≤ v := fun v hv => hl v (List.mem_cons_of_mem _ hv)
    exact List.Pairwise.cons (le_of_mem_cumsumQFrom (acc + u) us hus) (ih (acc + u) hus)

theorem pairwise_cumsumQ (l : List ℚ) (hl : ∀ u ∈ l, 0 ≤ u) :
    (cumsumQ l).Pairwise (· ≤ ·) := by
  cases l with
  | nil => exact List.Pairwise.nil
  | cons u us =>
    have hus : ∀ v ∈ us, 0 ≤ v := fun v hv => hl v (List.mem_cons_of_mem _ hv)
    exact List.Pairwise.cons (le_of_mem_cumsumQFrom u us hus) (pairwise_cumsumQFrom u us hus)

/-! Generic list lemmas -/

theorem filter_eq_takeWhile_of_pairwise {α : Type} {p : α → Bool} :
    ∀ {l : List α}, l.Pairwise (fun a b => p b = true → p a = true) →
      l.filter p = l.takeWhile p := by
  intro l
  induction l with
  | nil => intro _; rfl
  | cons a l ih =>
    intro h
    rcases List.pairwise_cons.1 h with ⟨ha, hl⟩
    by_cases hpa : p a = true
    · simp [List.filter_cons, List.takeWhile_cons, hpa, ih hl]
    · have : l.filter p = [] := by
        rw [List.filter_eq_nil_iff]
        intro b hb hpb
        exact hpa (ha b hb hpb)
      simp [List.filter_cons, List.takeWhile_cons, hpa, this]

theorem takeWhile_append_takeWhile {α : Type} {p q : α → Bool}
    (himp : ∀ a, p a = true → q a = true) :
    ∀ l : List α, ∃ t, l.takeWhile p ++ t = l.takeWhile q := by
  intro l
  induction l with
  | nil => exact ⟨[], rfl⟩
  | cons a l ih =>
    by_cases hpa : p a = true
    · obtain ⟨t, ht⟩ := ih
      exact ⟨t, by simp [List.takeWhile_cons, hpa, himp a hpa, ht]⟩
    · exact ⟨(a :: l).takeWhile q, by simp [List.takeWhile_cons, hpa]⟩

theorem head?_dropWhile_false {α : Type} (p : α → Bool) :
    ∀ (l : List α) (a : α), (l.dropWhile p).head? = some a → p a = false := by
  intro l
  induction l with
  | nil => intro a h; simp [List.dropWhile] at h
  | cons b l ih =>
    intro a h
    by_cases hpb : p b = true
    · rw [List.dropWhile_cons, if_pos hpb] at h
      exact ih a h
    · rw [List.dropWhile_cons, if_neg hpb] at h
      simp at h
      subst h
      simpa using hpb

theorem drop_length_takeWhile {α : Type} (p : α → Bool) :
    ∀ l : List α, l.drop (l.takeWhile p).length = l.dropWhile p := by
  intro l
  induction l with
  | nil => rfl
  | cons a l ih =>
    by_cases hpa : p a = true
    · simp [List.takeWhile_cons, List.dropWhile_cons, hpa, ih]
    · simp [List.takeWhile_cons, List.dropWhile_cons, hpa]

theorem pairwise_zip_right {α β : Type} (R : β → β → Prop) :
    ∀ (l1 : List α) (l2 : List β), l2.Pairwise R →
      (l1.zip l2).Pairwise (fun a b => R a.2 b.2) := by
  intro l1
  induction l1 with
  | nil => intro l2 _; exact List.Pairwise.nil
  | cons a l1 ih =>
    intro l2 h
    cases l2 with
    | nil => exact List.Pairwise.nil
    | cons b l2 =>
      rcases List.pairwise_cons.1 h with ⟨hb, hl2⟩
      refine List.Pairwise.cons ?_ (ih l2 hl2)
      rintro ⟨x, y⟩ hxy
      exact hb y (List.of_mem_zip hxy).2

/-! Column index arithmetic -/

theorem findIdxName_lt {cols : List String} {name : String} (h : name ∈ cols) :
    cols.findIdx (fun c => decide (c = name)) < cols.length :=
  List.findIdx_lt_length.2 ⟨name, h, by simp⟩

theorem findIdxName_append_left {cols extra : List String} {name : String} (h : name ∈ cols) :
    (cols ++ extra).findIdx (fun c => decide (c = name))
      = cols.findIdx (fun c => decide (c = name)) := by
  rw [List.findIdx_append, if_pos (findIdxName_lt h)]

theorem findIdxName_append_right {cols extra : List String} {name : String} (h : name ∉ cols) :
    (cols ++ extra).findIdx (fun c => decide (c = name))
      = cols.length + extra.findIdx (fun c => decide (c = name)) := by
  have hfa : cols.findIdx (fun c => decide (c = name)) = cols.length := by
    rw [List.findIdx_eq_length]
    intro x hx
    simp only [decide_eq_false_iff_not]
    rintro rfl
    exact h hx
  rw [List.findIdx_append, hfa, if_neg (lt_irrefl _), Nat.add_comm]

/-! Frame-operation lemmas -/

theorem setCol_cols_append {df : DataFrame} {name : String} (vals : List Cell)
    (h : name ∉ df.cols) : (setCol df name vals).cols = df.cols ++ [name] := by
  simp [setCol, h]

theorem setCol_rows_append {df : DataFrame} {name : String} (vals : List Cell)
    (h : name ∉ df.cols) :
    (setCol df name vals).rows = (df.rows.zip vals).map (fun rv => rv.1 ++ [rv.2]) := by
  simp [setCol, h]

theorem mem_setCol_cols_self (df : DataFrame) (name : String) (vals : List Cell) :
    name ∈ (setCol df name vals).cols := by
  by_cases h : name ∈ df.cols
  · simp [setCol, h]
  · simp [setCol, h]

theorem mem_setCol_cols_of_mem {df : DataFrame} {c : String} (name : String) (vals : List Cell)
    (hc : c ∈ df.cols) : c ∈ (setCol df name vals).cols := by
  by_cases h : name ∈ df.cols
  · simpa [setCol, h] using hc
  · simp [setCol, h, List.mem_append, hc]

theorem setCol_rows_length (df : DataFrame) (name : String) (vals : List Cell) :
    (setCol df name vals).rows.length = min df.rows.length vals.length := by
  unfold setCol
  by_cases h : name ∈ df.cols <;> simp [h, List.length_zip]

theorem colIdx_setCol_append_of_mem {df : DataFrame} {name : String} (vals : List Cell)
    (h : name ∉ df.cols) {c : String} (hc : c ∈ df.cols) :
    colIdx (setCol df name vals) c = colIdx df c := by
  unfold colIdx
  rw [setCol_cols_append vals h]
  exact findIdxName_append_left hc

theorem colIdx_setCol_append_self {df : DataFrame} {name : String} (vals : List Cell)
    (h : name ∉ df.cols) : colIdx (setCol df name vals) name = df.cols.length := by
  unfold colIdx
  rw [setCol_cols_append vals h, findIdxName_append_right h]
  simp [List.findIdx_cons]

theorem colValues_setCol_append_self {df : DataFrame} {name : String} {vals : List Cell}
    (h : name ∉ df.cols) (hrect : df.Rect) (hlen : vals.length = df.rows.length) :
    colValues (setCol df name vals) name = vals := by
  unfold colValues
  rw [setCol_rows_append vals h, colIdx_setCol_append_self vals h, List.map_map]
  have hpt : ∀ rv ∈ df.rows.zip vals,
      ((fun r : Row => r.getD df.cols.length default) ∘ (fun rv : Row × Cell => rv.1 ++ [rv.2])) rv
        = Prod.snd rv := by
    rintro ⟨r, v⟩ hrv
    have hlr : r.length = df.cols.length := hrect r (List.of_mem_zip hrv).1
    simp only [Function.comp_apply]
    rw [List.getD_append_right _ _ _ _ (le_of_eq hlr)]
    simp [hlr]
  rw [List.map_congr_left hpt, List.map_snd_zip _ _ (le_of_eq hlen)]

theorem colValues_setCol_append_of_mem {df : DataFrame} {name : String} {vals : List Cell}
    (h : name ∉ df.cols) (hrect : df.Rect) (hlen : vals.length = df.rows.length)
    {c : String} (hc : c ∈ df.cols) :
    colValues (setCol df name vals) c = colValues df c := by
  unfold colValues
  rw [setCol_rows_append vals h, colIdx_setCol_append_of_mem vals h hc, List.map_map]
  have hlt : colIdx df c < df.cols.length := findIdxName_lt hc
  have hpt : ∀ rv ∈ df.rows.zip vals,
      ((fun r : Row => r.getD (colIdx df c) default) ∘ (fun rv : Row × Cell => rv.1 ++ [rv.2])) rv
        = ((fun r : Row => r.getD (colIdx df c) default) ∘ Prod.fst) rv := by
    rintro ⟨r, v⟩ hrv
    have hlr : r.length = df.cols.length := hrect r (List.of_mem_zip hrv).1
    simp only [Function.comp_apply]
    exact List.getD_append _ _ _ _ (by rw [hlr]; exact hlt)
  rw [List.map_congr_left hpt, ← List.map_map, List.map_fst_zip _ _ (le_of_eq hlen.symm)]

theorem rect_setCol_append {df : DataFrame} {name : String} {vals : List Cell}
    (h : name ∉ df.cols) (hrect : df.Rect) : (setCol df name vals).Rect := by
  intro r hr
  rw [setCol_rows_append vals h] at hr
  rw [setCol_cols_append vals h]
  obtain ⟨rv, hrv, rfl⟩ := List.mem_map.1 hr
  have hlr : rv.1.length = df.cols.length := hrect rv.1 (List.of_mem_zip hrv).1
  simp [hlr]

theorem sortValuesDesc_rows_perm (df : DataFrame) (name : String) :
    (sortValuesDesc df name).rows.Perm df.rows :=
  List.perm_insertionSort _ _

theorem rect_sortValuesDesc (df : DataFrame) (name : String) (hrect : df.Rect) :
    (sortValuesDesc df name).Rect := by
  intro r hr
  exact hrect r ((sortValuesDesc_rows_perm df name).mem_iff.1 hr)

theorem length_colValues (df : DataFrame) (name : String) :
    (colValues df name).length = df.rows.length := by
  simp [colValues]

theorem missingCols_nil_mem {df : DataFrame} (h : missingCols df = []) :
    "device_model" ∈ df.cols ∧ "os_version" ∈ df.cols ∧ "usage_percent" ∈ df.cols := by
  rw [missingCols, List.filter_eq_nil_iff] at h
  have h1 := h "device_model" (by simp [REQUIRED])
  have h2 := h "os_version" (by simp [REQUIRED])
  have h3 := h "usage_percent" (by simp [REQUIRED])
  exact ⟨by simpa using h1, by simpa using h2, by simpa using h3⟩

/-! The coverage pipeline, stage by stage -/

theorem coverageSorted_cols (df : DataFrame) : (coverageSorted df).cols = df.cols := rfl

theorem colIdx_coverageSorted (df : DataFrame) (name : String) :
    colIdx (coverageSorted df) name = colIdx df name := rfl

theorem length_cum_coverageSorted (df : DataFrame) :
    (cumsumCells (colValues (coverageSorted df) "usage_percent")).length
      = (coverageSorted df).rows.length := by
  rw [length_cumsumCells, length_colValues]

theorem coverageWithCum_cols (df : DataFrame) (hcc : "cumulative_coverage" ∉ df.cols) :
    (coverageWithCum df).cols = df.cols ++ ["cumulative_coverage"] :=
  setCol_cols_append _ hcc

theorem coverageWithCum_rows (df : DataFrame) (hcc : "cumulative_coverage" ∉ df.cols) :
    (coverageWithCum df).rows = (coverageAnnotated df).map (fun rc => rc.1 ++ [rc.2]) :=
  setCol_rows_append _ hcc

theorem coverageWithCum_cumvals (df : DataFrame) (hrect : df.Rect)
    (hcc : "cumulative_coverage" ∉ df.cols) :
    colValues (coverageWithCum df) "cumulative_coverage"
      = cumsumCells (colValues (coverageSorted df) "usage_percent") :=
  colValues_setCol_append_self hcc (rect_sortValuesDesc df _ hrect)
    (length_cum_coverageSorted df)

theorem flag_not_mem_coverageWithCum_cols (df : DataFrame)
    (hcc : "cumulative_coverage" ∉ df.cols) (hfl : "include_in_matrix" ∉ df.cols) :
    "include_in_matrix" ∉ (coverageWithCum df).cols := by
  rw [coverageWithCum_cols df hcc]
  simp [List.mem_append, hfl]

theorem cum_eq_snd_coverageAnnotated (df : DataFrame) :
    cumsumCells (colValues (coverageSorted df) "usage_percent")
      = (coverageAnnotated df).map Prod.snd :=
  (List.map_snd_zip _ _ (le_of_eq (length_cum_coverageSorted df))).symm

theorem rows_eq_fst_coverageAnnotated (df : DataFrame) :
    (coverageAnnotated df).map Prod.fst = (coverageSorted df).rows :=
  List.map_fst_zip _ _ (le_of_eq (length_cum_coverageSorted df).symm)

theorem coverageWithFlag_cols (df : DataFrame) (t : ℚ)
    (hcc : "cumulative_coverage" ∉ df.cols) (hfl : "include_in_matrix" ∉ df.cols) :
    (coverageWithFlag df t).cols
      = (df.cols ++ ["cumulative_coverage"]) ++ ["include_in_matrix"] := by
  unfold coverageWithFlag
  rw [setCol_cols_append _ (flag_not_mem_coverageWithCum_cols df hcc hfl),
    coverageWithCum_cols df hcc]

theorem mem_coverageAnnotated_length {df : DataFrame} (hrect : df.Rect)
    {rc : Row × Cell} (hrc : rc ∈ coverageAnnotated df) :
    rc.1.length = df.cols.length :=
  rect_sortValuesDesc df "usage_percent" hrect rc.1 (List.of_mem_zip hrc).1

theorem coverageWithFlag_rows (df : DataFrame) (t : ℚ) (hrect : df.Rect)
    (hcc : "cumulative_coverage" ∉ df.cols) (hfl : "include_in_matrix" ∉ df.cols) :
    (coverageWithFlag df t).rows = (coverageAnnotated df).map
      (fun rc => rc.1 ++ [rc.2, Cell.bool (cellLeConst rc.2 t)]) := by
  unfold coverageWithFlag
  rw [setCol_rows_append _ (flag_not_mem_coverageWithCum_cols df hcc hfl),
    coverageWithCum_cumvals df hrect hcc, coverageWithCum_rows df hcc,
    cum_eq_snd_coverageAnnotated df, List.map_map, List.zip_map', List.map_map]
  apply List.map_congr_left
  rintro ⟨r, c⟩ h
  simp [Function.comp]

theorem colIdx_coverageWithFlag_flag (df : DataFrame) (t : ℚ)
    (hcc : "cumulative_coverage" ∉ df.cols) (hfl : "include_in_matrix" ∉ df.cols) :
    colIdx (coverageWithFlag df t) "include_in_matrix" = df.cols.length + 1 := by
  unfold colIdx
  rw [coverageWithFlag_cols df t hcc hfl]
  have h2 : "include_in_matrix" ∉ df.cols ++ ["cumulative_coverage"] := by
    simp [List.mem_append, hfl]
  rw [findIdxName_append_right h2]
  simp [List.findIdx_cons, List.length_append]

theorem coverageMasked_rows (df : DataFrame) (t : ℚ) (hrect : df.Rect)
    (hcc : "cumulative_coverage" ∉ df.cols) (hfl : "include_in_matrix" ∉ df.cols) :
    (coverageMasked df t).rows = (coverageIncluded df t).map
      (fun rc => rc.1 ++ [rc.2, Cell.bool (cellLeConst rc.2 t)]) := by
  unfold coverageMasked maskRows
  simp only []
  rw [coverageWithFlag_rows df t hrect hcc hfl, colIdx_coverageWithFlag_flag df t hcc hfl,
    List.filter_map]
  unfold coverageIncluded
  congr 1
  apply List.filter_congr
  rintro ⟨r, c⟩ hrc
  have hlr : r.length = df.cols.length := mem_coverageAnnotated_length hrect hrc
  simp only [Function.comp_apply]
  rw [List.getD_append_right _ _ _ _ (by rw [hlr]; exact Nat.le_succ _)]
  have : df.cols.length + 1 - r.length = 1 := by rw [hlr]; simp
  rw [this]
  simp [List.getD_cons_succ, List.getD_cons_zero]

theorem coverageMasked_cols (df : DataFrame) (t : ℚ)
    (hcc : "cumulative_coverage" ∉ df.cols) (hfl : "include_in_matrix" ∉ df.cols) :
    (coverageMasked df t).cols
      = (df.cols ++ ["cumulative_coverage"]) ++ ["include_in_matrix"] :=
  coverageWithFlag_cols df t hcc hfl

theorem colIdx_coverageMasked_of_mem (df : DataFrame) (t : ℚ)
    (hcc : "cumulative_coverage" ∉ df.cols) (hfl : "include_in_matrix" ∉ df.cols)
    {c : String} (hc : c ∈ df.cols) :
    colIdx (coverageMasked df t) c = colIdx df c := by
  unfold colIdx
  rw [coverageMasked_cols df t hcc hfl,
    findIdxName_append_left (List.mem_append_left _ hc), findIdxName_append_left hc]

theorem colIdx_coverageMasked_cum (df : DataFrame) (t : ℚ)
    (hcc : "cumulative_coverage" ∉ df.cols) (hfl : "include_in_matrix" ∉ df.cols) :
    colIdx (coverageMasked df t) "cumulative_coverage" = df.cols.length := by
  unfold colIdx
  rw [coverageMasked_cols df t hcc hfl,
    findIdxName_append_left (List.mem_append_right _ (by simp)),
    findIdxName_append_right hcc]
  simp [List.findIdx_cons]

theorem coverage_selectCols (df : DataFrame) (t : ℚ) (hrect : df.Rect)
    (hmiss : missingCols df = []) (hcc : "cumulative_coverage" ∉ df.cols)
    (hfl : "include_in_matrix" ∉ df.cols) :
    selectCols (coverageMasked df t) matrixCols
      = .ok ⟨matrixCols, (coverageIncluded df t).map (matrixProjRow df)⟩ := by
  obtain ⟨hdm, hos, hup⟩ := missingCols_nil_mem hmiss
  unfold selectCols
  rw [if_pos ?hall]
  case hall =>
    rw [List.all_eq_true]
    intro n hn
    rw [coverageMasked_cols df t hcc hfl]
    simp only [matrixCols, List.mem_cons, List.not_mem_nil, or_false] at hn
    rcases hn with rfl | rfl | rfl | rfl <;> simp [List.mem_append, hdm, hos, hup]
  apply congrArg Except.ok
  apply congrArg (DataFrame.mk matrixCols)
  rw [coverageMasked_rows df t hrect hcc hfl, List.map_map]
  apply List.map_congr_left
  rintro ⟨r, c⟩ hrc
  have hA : (r, c) ∈ coverageAnnotated df := (List.mem_filter.1 hrc).1
  have hlr : r.length = df.cols.length := mem_coverageAnnotated_length hrect hA
  have g1 : ∀ {nm : String}, nm ∈ df.cols →
      (r ++ [c, Cell.bool (cellLeConst c t)]).getD (colIdx (coverageMasked df t) nm) default
        = r.getD (colIdx df nm) default := by
    intro nm hnm
    rw [colIdx_coverageMasked_of_mem df t hcc hfl hnm]
    exact List.getD_append _ _ _ _ (by rw [hlr]; exact findIdxName_lt hnm)
  have g2 : (r ++ [c, Cell.bool (cellLeConst c t)]).getD
      (colIdx (coverageMasked df t) "cumulative_coverage") default = c := by
    rw [colIdx_coverageMasked_cum df t hcc hfl,
      List.getD_append_right _ _ _ _ (le_of_eq hlr)]
    have : df.cols.length - r.length = 0 := by rw [hlr]; simp
    rw [this]
    simp
  simp only [Function.comp_apply, matrixCols, List.map_cons, List.map_nil, matrixProjRow]
  rw [g1 hdm, g1 hos, g1 hup, g2]

theorem coverageWithCum_length (df : DataFrame) :
    (coverageWithCum df).rows.length = df.rows.length := by
  unfold coverageWithCum
  rw [setCol_rows_length, length_cum_coverageSorted, min_self]
  exact (sortValuesDesc_rows_perm df "usage_percent").length_eq

theorem coverageWithFlag_length (df : DataFrame) (t : ℚ) :
    (coverageWithFlag df t).rows.length = df.rows.length := by
  unfold coverageWithFlag
  rw [setCol_rows_length, List.length_map, length_colValues, min_self,
    coverageWithCum_length]

theorem sumColQ_coverageSorted (df : DataFrame) :
    sumColQ (coverageSorted df) "usage_percent" = sumColQ df "usage_percent" := by
  unfold sumColQ
  exact List.Perm.sum_eq (List.Perm.map _ (List.Perm.map _ (sortValuesDesc_rows_perm df _)))

theorem up_mem_coverageWithCum_cols {df : DataFrame} (hcc : "cumulative_coverage" ∉ df.cols)
    (hup : "usage_percent" ∈ df.cols) : "usage_percent" ∈ (coverageWithCum df).cols := by
  rw [coverageWithCum_cols df hcc]
  exact List.mem_append_left _ hup

theorem rect_coverageWithCum (df : DataFrame) (hrect : df.Rect)
    (hcc : "cumulative_coverage" ∉ df.cols) : (coverageWithCum df).Rect := by
  unfold coverageWithCum
  exact rect_setCol_append (by exact hcc)
    (rect_sortValuesDesc df _ hrect)

theorem sumColQ_coverageWithCum (df : DataFrame) (hrect : df.Rect)
    (hcc : "cumulative_coverage" ∉ df.cols) (hup : "usage_percent" ∈ df.cols) :
    sumColQ (coverageWithCum df) "usage_percent" = sumColQ df "usage_percent" := by
  have h1 : colValues (coverageWithCum df) "usage_percent"
      = colValues (coverageSorted df) "usage_percent" := by
    unfold coverageWithCum
    exact colValues_setCol_append_of_mem (by exact hcc)
      (rect_sortValuesDesc df _ hrect) (length_cum_coverageSorted df)
      (by exact hup)
  unfold sumColQ
  rw [h1]
  exact sumColQ_coverageSorted df

theorem sumColQ_coverageWithFlag (df : DataFrame) (t : ℚ) (hrect : df.Rect)
    (hcc : "cumulative_coverage" ∉ df.cols) (hfl : "include_in_matrix" ∉ df.cols)
    (hup : "usage_percent" ∈ df.cols) :
    sumColQ (coverageWithFlag df t) "usage_percent" = sumColQ df "usage_percent" := by
  have h1 : colValues (coverageWithFlag df t) "usage_percent"
      = colValues (coverageWithCum df) "usage_percent" := by
    unfold coverageWithFlag
    exact colValues_setCol_append_of_mem (flag_not_mem_coverageWithCum_cols df hcc hfl)
      (rect_coverageWithCum df hrect hcc)
      (by rw [List.length_map, length_colValues]) (up_mem_coverageWithCum_cols hcc hup)
  unfold sumColQ
  rw [h1]
  exact sumColQ_coverageWithCum df hrect hcc hup

theorem sumColQ_matrixFrame (df : DataFrame) (l : List (Row × Cell)) :
    sumColQ ⟨matrixCols, l.map (matrixProjRow df)⟩ "usage_percent"
      = (l.map (fun rc => cellRat (rc.1.getD (colIdx df "usage_percent") default))).sum := by
  unfold sumColQ colValues
  have hidx : colIdx ⟨matrixCols, l.map (matrixProjRow df)⟩ "usage_percent" = 2 := by
    simp [colIdx, matrixCols, List.findIdx_cons]
  rw [hidx, List.map_map, List.map_map]
  apply congrArg List.sum
  apply List.map_congr_left
  intro rc _
  simp [Function.comp, matrixProjRow]

/-- Full characterisation of a successful upload: under the schema and
dtype validations (and the sanity conditions that the input does not
already use the two internal column names), the endpoint returns exactly
the matrix of threshold-passing entries and the documented summary. -/
theorem upload_csv_ok (df : DataFrame) (t : ℚ) (hrect : df.Rect)
    (hmiss : missingCols df = []) (hnum : usageNumeric df = true)
    (hcc : "cumulative_coverage" ∉ df.cols) (hfl : "include_in_matrix" ∉ df.cols) :
    upload_csv df t = .ok
      { matrix := ⟨matrixCols, (coverageIncluded df t).map (matrixProjRow df)⟩
        summary :=
          { total_devices := df.rows.length
            included_devices := (coverageIncluded df t).length
            total_usage_percent := round2 (sumColQ df "usage_percent")
            covered_usage_percent := round2 (((coverageIncluded df t).map
                (fun rc => cellRat (rc.1.getD (colIdx df "usage_percent") default))).sum) } } := by
  obtain ⟨hdm, hos, hup⟩ := missingCols_nil_mem hmiss
  unfold upload_csv
  rw [if_neg (by simp [hmiss]), if_neg (by simp [hnum]),
    coverage_selectCols df t hrect hmiss hcc hfl]
  simp only [coverageWithFlag_length df t, sumColQ_coverageWithFlag df t hrect hcc hfl hup,
    sumColQ_matrixFrame df (coverageIncluded df t), List.length_map]

/-! The included entries form the longest threshold-passing prefix -/

theorem colValues_coverageSorted_perm (df : DataFrame) :
    (colValues (coverageSorted df) "usage_percent").Perm (colValues df "usage_percent") :=
  List.Perm.map _ (sortValuesDesc_rows_perm df "usage_percent")

theorem usage_cells_num {df : DataFrame} (hnum : usageNumeric df = true) :
    ∀ c ∈ colValues (coverageSorted df) "usage_percent", c.isNum = true := by
  intro c hc
  have hc' : c ∈ colValues df "usage_percent" :=
    (colValues_coverageSorted_perm df).mem_iff.1 hc
  exact List.all_eq_true.1 hnum c hc'

theorem snd_coverageAnnotated_num {df : DataFrame} (hnum : usageNumeric df = true) :
    ∀ rc ∈ coverageAnnotated df, (rc.2).isNum = true := by
  rintro ⟨r, c⟩ hrc
  have hcm : c ∈ cumsumCells (colValues (coverageSorted df) "usage_percent") :=
    (List.of_mem_zip hrc).2
  rw [cumsumCells_num _ (usage_cells_num hnum)] at hcm
  obtain ⟨q, _, rfl⟩ := List.mem_map.1 hcm
  rfl

theorem pairwise_coverageAnnotated (df : DataFrame) (hnum : usageNumeric df = true)
    (hnn : ∀ c ∈ colValues df "usage_percent", 0 ≤ cellRat c) :
    (coverageAnnotated df).Pairwise (fun a b => cellRat a.2 ≤ cellRat b.2) := by
  unfold coverageAnnotated
  apply pairwise_zip_right (fun c1 c2 => cellRat c1 ≤ cellRat c2)
  rw [cumsumCells_num _ (usage_cells_num hnum)]
  rw [List.pairwise_map]
  have hq : ∀ u ∈ (colValues (coverageSorted df) "usage_percent").map cellRat, 0 ≤ u := by
    intro u hu
    obtain ⟨c, hc, rfl⟩ := List.mem_map.1 hu
    exact hnn c ((colValues_coverageSorted_perm df).mem_iff.1 hc)
  exact (pairwise_cumsumQ _ hq).imp (fun h => h)

theorem coverageIncluded_eq_takeWhile (df : DataFrame) (t : ℚ)
    (hnum : usageNumeric df = true)
    (hnn : ∀ c ∈ colValues df "usage_percent", 0 ≤ cellRat c) :
    coverageIncluded df t
      = (coverageAnnotated df).takeWhile (fun rc => cellLeConst rc.2 t) := by
  unfold coverageIncluded
  apply filter_eq_takeWhile_of_pairwise
  refine List.Pairwise.imp_of_mem ?_ (pairwise_coverageAnnotated df hnum hnn)
  intro a b ha hb hab hpb
  obtain ⟨qa, hqa⟩ := isNum_exists_num (snd_coverageAnnotated_num hnum a ha)
  obtain ⟨qb, hqb⟩ := isNum_exists_num (snd_coverageAnnotated_num hnum b hb)
  rw [hqa] at hab ⊢
  rw [hqb] at hab hpb
  simp only [cellLeConst, cellRat, decide_eq_true_eq] at hab hpb ⊢
  linarith

/-- Claim C1: for every dataset that passes validation, with non-negative
usage values and a threshold in [0, 100], the coverage matrix is exactly
the longest prefix of the usage-descending-sorted sequence whose running
cumulative sum stays within the threshold: an entry is included iff its
cumulative coverage is at most the threshold (inclusive boundary), and the
first excluded entry, when one exists, has cumulative coverage strictly
above the threshold. -/
theorem C1_coverage_matrix_longest_prefix (df : DataFrame) (t : ℚ)
    (hrect : df.Rect) (hmiss : missingCols df = []) (hnum : usageNumeric df = true)
    (hcc : "cumulative_coverage" ∉ df.cols) (hfl : "include_in_matrix" ∉ df.cols)
    (hnn : ∀ c ∈ colValues df "usage_percent", 0 ≤ cellRat c)
    (ht0 : 0 ≤ t) (ht1 : t ≤ 100) :
    (∃ res, upload_csv df t = .ok res
        ∧ res.matrix.rows = ((coverageAnnotated df).takeWhile
            (fun rc => cellLeConst rc.2 t)).map (matrixProjRow df))
    ∧ coverageIncluded df t
        = (coverageAnnotated df).takeWhile (fun rc => cellLeConst rc.2 t)
    ∧ (∀ rc ∈ coverageIncluded df t, cellRat rc.2 ≤ t)
    ∧ (∀ rc, ((coverageAnnotated df).drop (coverageIncluded df t).length).head? = some rc
        → t < cellRat rc.2) := by
  have htw := coverageIncluded_eq_takeWhile df t hnum hnn
  refine ⟨⟨_, upload_csv_ok df t hrect hmiss hnum hcc hfl, ?_⟩, htw, ?_, ?_⟩
  · simp only [htw]
  · intro rc hrc
    have hp := (List.mem_filter.1 hrc).2
    have hA := (List.mem_filter.1 hrc).1
    obtain ⟨q, hq⟩ := isNum_exists_num (snd_coverageAnnotated_num hnum rc hA)
    rw [hq] at hp ⊢
    simpa [cellLeConst, cellRat] using hp
  · intro rc hrc
    rw [htw] at hrc
    rw [drop_length_takeWhile] at hrc
    have hfalse := head?_dropWhile_false _ _ _ hrc
    have hmem : rc ∈ coverageAnnotated df := by
      have hin : rc ∈ (coverageAnnotated df).dropWhile (fun rc => cellLeConst rc.2 t) := by
        cases hld : (coverageAnnotated df).dropWhile (fun rc => cellLeConst rc.2 t) with
        | nil => rw [hld] at hrc; simp at hrc
        | cons x xs =>
          rw [hld] at hrc
          simp at hrc
          rw [← hrc]
          exact List.mem_cons_self _ _
      exact List.Sublist.mem hin (List.dropWhile_sublist _)
    obtain ⟨q, hq⟩ := isNum_exists_num (snd_coverageAnnotated_num hnum rc hmem)
    rw [hq] at hfalse ⊢
    simp only [cellLeConst, cellRat] at hfalse ⊢
    have : ¬ q ≤ t := by simpa using hfalse
    linarith

/-- Witness for C1 at scenario A with threshold 90. -/
theorem C1_witness :
    (∃ res, upload_csv dfScenarioA 90 = .ok res
        ∧ res.matrix.rows = ((coverageAnnotated dfScenarioA).takeWhile
            (fun rc => cellLeConst rc.2 90)).map (matrixProjRow dfScenarioA))
    ∧ coverageIncluded dfScenarioA 90
        = (coverageAnnotated dfScenarioA).takeWhile (fun rc => cellLeConst rc.2 90)
    ∧ (∀ rc ∈ coverageIncluded dfScenarioA 90, cellRat rc.2 ≤ 90)
    ∧ (∀ rc, ((coverageAnnotated dfScenarioA).drop
          (coverageIncluded dfScenarioA 90).length).head? = some rc
        → 90 < cellRat rc.2) :=
  C1_coverage_matrix_longest_prefix dfScenarioA 90
    (by with_unfolding_all decide) (by with_unfolding_all decide)
    (by with_unfolding_all decide) (by with_unfolding_all decide)
    (by with_unfolding_all decide) (by with_unfolding_all decide)
    (by with_unfolding_all decide) (by with_unfolding_all decide)

/-- Claim C2: for a fixed dataset (with the non-negative usage invariant of
the data model), the coverage selection is monotone in the threshold: at
T1 < T2 the included entries at T1 are a prefix of those at T2, so the
included count never decreases, and neither does the reported
`included_devices`. -/
theorem C2_threshold_monotone (df : DataFrame) (t1 t2 : ℚ)
    (hrect : df.Rect) (hmiss : missingCols df = []) (hnum : usageNumeric df = true)
    (hcc : "cumulative_coverage" ∉ df.cols) (hfl : "include_in_matrix" ∉ df.cols)
    (hnn : ∀ c ∈ colValues df "usage_percent", 0 ≤ cellRat c)
    (ht : t1 < t2) :
    (∃ tail, coverageIncluded df t1 ++ tail = coverageIncluded df t2)
    ∧ (coverageIncluded df t1).length ≤ (coverageIncluded df t2).length
    ∧ ∀ r1 r2, upload_csv df t1 = .ok r1 → upload_csv df t2 = .ok r2 →
        r1.summary.included_devices ≤ r2.summary.included_devices := by
  have h1 := coverageIncluded_eq_takeWhile df t1 hnum hnn
  have h2 := coverageIncluded_eq_takeWhile df t2 hnum hnn
  have himp : ∀ rc : Row × Cell, cellLeConst rc.2 t1 = true → cellLeConst rc.2 t2 = true := by
    rintro ⟨r, c⟩ hc
    cases c with
    | num q =>
      simp only [cellLeConst, decide_eq_true_eq] at hc ⊢
      linarith
    | str s => simp [cellLeConst] at hc
    | bool b => simp [cellLeConst] at hc
  obtain ⟨tail, htail⟩ :=
    takeWhile_append_takeWhile himp (coverageAnnotated df)
  have hpre : coverageIncluded df t1 ++ tail = coverageIncluded df t2 := by
    rw [h1, h2]; exact htail
  have hlen : (coverageIncluded df t1).length ≤ (coverageIncluded df t2).length := by
    rw [← hpre, List.length_append]
    exact Nat.le_add_right _ _
  refine ⟨⟨tail, hpre⟩, hlen, ?_⟩
  intro r1 r2 hok1 hok2
  rw [upload_csv_ok df t1 hrect hmiss hnum hcc hfl] at hok1
  rw [upload_csv_ok df t2 hrect hmiss hnum hcc hfl] at hok2
  injection hok1 with e1
  injection hok2 with e2
  rw [← e1, ← e2]
  exact hlen

/-- Witness for C2 at scenario A with thresholds 70 < 90. -/
theorem C2_witness :
    (∃ tail, coverageIncluded dfScenarioA 70 ++ tail = coverageIncluded dfScenarioA 90)
    ∧ (coverageIncluded dfScenarioA 70).length ≤ (coverageIncluded dfScenarioA 90).length
    ∧ ∀ r1 r2, upload_csv dfScenarioA 70 = .ok r1 → upload_csv dfScenarioA 90 = .ok r2 →
        r1.summary.included_devices ≤ r2.summary.included_devices :=
  C2_threshold_monotone dfScenarioA 70 90
    (by with_unfolding_all decide) (by with_unfolding_all decide)
    (by with_unfolding_all decide) (by with_unfolding_all decide)
    (by with_unfolding_all decide) (by with_unfolding_all decide)
    (by with_unfolding_all decide)

/-- Claim C7 as stated is false: the coverage endpoint accepts no grouping
key at all, so the coverage matrix is never computed over grouped rows.
Concretely, the result on `dfThree` differs from the result the grouped
pipeline would give (grouping by os_version even drops `device_model`, so
coverage over the grouped rows is a schema rejection, not a matrix). -/
theorem C7_counterexample :
    upload_csv dfThree 90 ≠ upload_csv dfThreeGrouped 90
    ∧ groupbySum dfThree "os_version" = .ok dfThreeGrouped
    ∧ upload_csv dfThreeGrouped 90 = .error (.missingColumns ["device_model"]) := by
  refine ⟨?_, ?_, ?_⟩ <;> with_unfolding_all decide

/-- Claim C7 amended: the coverage operation has no grouping stage; it is
computed over the raw validated rows, so in particular the reported
`total_devices` is always the raw row count (grouping would change it). -/
theorem C7_no_grouping_stage (df : DataFrame) (t : ℚ) (res : CoverageResult)
    (hok : upload_csv df t = .ok res) :
    res.summary.total_devices = df.rows.length := by
  unfold upload_csv at hok
  split at hok
  · exact absurd hok (by simp)
  split at hok
  · exact absurd hok (by simp)
  split at hok
  · exact absurd hok (by simp)
  · injection hok with h
    rw [← h]
    exact coverageWithFlag_length df t

/-- Witness for the amended C7 at `dfThree`. -/
theorem C7_witness :
    { matrix := ⟨matrixCols, (coverageIncluded dfThree 90).map (matrixProjRow dfThree)⟩
      summary :=
        { total_devices := dfThree.rows.length
          included_devices := (coverageIncluded dfThree 90).length
          total_usage_percent := round2 (sumColQ dfThree "usage_percent")
          covered_usage_percent := round2 (((coverageIncluded dfThree 90).map
              (fun rc => cellRat (rc.1.getD (colIdx dfThree "usage_percent") default))).sum)
          : CoverageSummary }
      : CoverageResult }.summary.total_devices = dfThree.rows.length :=
  C7_no_grouping_stage dfThree 90 _ (by with_unfolding_all decide)

/-- Claim C10: a successful coverage result carries exactly the four matrix
columns (internal flag and any extra input columns dropped), and the
summary holds the two counts plus the two usage totals rounded to two
decimal places. -/
theorem C10_result_shape (df : DataFrame) (t : ℚ) (res : CoverageResult)
    (hrect : df.Rect) (hmiss : missingCols df = []) (hnum : usageNumeric df = true)
    (hcc : "cumulative_coverage" ∉ df.cols) (hfl : "include_in_matrix" ∉ df.cols)
    (hok : upload_csv df t = .ok res) :
    res.matrix.cols = matrixCols
    ∧ "include_in_matrix" ∉ res.matrix.cols
    ∧ (∀ c ∈ df.cols, c ∉ matrixCols → c ∉ res.matrix.cols)
    ∧ (∀ r ∈ res.matrix.rows, r.length = 4)
    ∧ res.summary.total_devices = df.rows.length
    ∧ res.summary.included_devices = res.matrix.rows.length
    ∧ res.summary.total_usage_percent = round2 (sumColQ df "usage_percent")
    ∧ res.summary.covered_usage_percent = round2 (sumColQ res.matrix "usage_percent") := by
  rw [upload_csv_ok df t hrect hmiss hnum hcc hfl] at hok
  injection hok with h
  rw [← h]
  refine ⟨rfl, by simp [matrixCols], fun c _ hc => hc, ?_, rfl, ?_, rfl, ?_⟩
  · intro r hr
    obtain ⟨rc, _, rfl⟩ := List.mem_map.1 hr
    simp [matrixProjRow]
  · simp
  · simp only [sumColQ_matrixFrame df (coverageIncluded df t)]

/-- Witness for C10 at `dfExtra` (which carries an extra `region` column). -/
theorem C10_witness :
    (⟨matrixCols, (coverageIncluded dfExtra 90).map (matrixProjRow dfExtra)⟩
        : DataFrame).cols = matrixCols
    ∧ "include_in_matrix" ∉ matrixCols
    ∧ ("region" ∈ dfExtra.cols ∧ "region" ∉ matrixCols) := by
  have h := C10_result_shape dfExtra 90 _
    (by with_unfolding_all decide) (by with_unfolding_all decide)
    (by with_unfolding_all decide) (by with_unfolding_all decide)
    (by with_unfolding_all decide)
    (upload_csv_ok dfExtra 90 (by with_unfolding_all decide) (by with_unfolding_all decide)
      (by with_unfolding_all decide) (by with_unfolding_all decide)
      (by with_unfolding_all decide))
  exact ⟨h.1, h.2.1, by with_unfolding_all decide, by with_unfolding_all decide⟩

/-! Grouping semantics -/

theorem sum_map_ite_single {K : Type} [DecidableEq K] (f0 : ℚ) :
    ∀ (ks : List K) (k0 : K), ks.Nodup → k0 ∈ ks →
      (ks.map (fun k => if k0 = k then f0 else 0)).sum = f0 := by
  intro ks
  induction ks with
  | nil => intro k0 _ h; simp at h
  | cons a ks ih =>
    intro k0 hnd hk0
    rcases List.mem_cons.1 hk0 with rfl | hk1
    · simp only [List.map_cons, List.sum_cons, if_pos rfl]
      have hz : ∀ k ∈ ks, (if k0 = k then f0 else 0) = 0 := by
        intro k hk
        rw [if_neg]
        rintro rfl
        exact (List.nodup_cons.1 hnd).1 hk
      rw [List.map_congr_left hz]
      simp
    · have hne : k0 ≠ a := by
        rintro rfl
        exact (List.nodup_cons.1 hnd).1 hk1
      simp only [List.map_cons, List.sum_cons, if_neg hne]
      rw [ih k0 (List.nodup_cons.1 hnd).2 hk1]
      simp

theorem sum_fibers {R K : Type} [DecidableEq K] (key : R → K) (f : R → ℚ) :
    ∀ (rows : List R) (ks : List K), ks.Nodup → (∀ r ∈ rows, key r ∈ ks) →
      (ks.map (fun k => ((rows.filter (fun r => decide (key r = k))).map f).sum)).sum
        = (rows.map f).sum := by
  intro rows
  induction rows with
  | nil => intro ks _ _; simp
  | cons r rows ih =>
    intro ks hnd hcov
    have hcov' : ∀ x ∈ rows, key x ∈ ks := fun x hx => hcov x (List.mem_cons_of_mem _ hx)
    have hstep : ∀ k ∈ ks,
        (((r :: rows).filter (fun x => decide (key x = k))).map f).sum
          = (if key r = k then f r else 0)
            + ((rows.filter (fun x => decide (key x = k))).map f).sum := by
      intro k _
      by_cases h : key r = k
      · simp [List.filter_cons, h]
      · simp [List.filter_cons, h]
    rw [List.map_congr_left hstep, List.sum_map_add,
      sum_map_ite_single (f r) ks (key r) hnd (hcov r (List.mem_cons_self _ _)),
      ih ks hnd hcov']
    simp

/-- The sorted distinct key values driving `groupbySum`. -/
theorem mem_groupSortedKeys (df : DataFrame) (key : String) (k : Cell) :
    k ∈ List.insertionSort (fun a b : Cell => cellLe a b = true)
        (uniqueList (colValues df key))
      ↔ k ∈ colValues df key := by
  rw [(List.perm_insertionSort _ _).mem_iff, mem_uniqueList]

theorem nodup_groupSortedKeys (df : DataFrame) (key : String) :
    (List.insertionSort (fun a b : Cell => cellLe a b = true)
      (uniqueList (colValues df key))).Nodup :=
  (List.perm_insertionSort _ _).nodup_iff.2 (nodup_uniqueList _)

/-- Claim C5 amended (general form): grouping keeps only the key column and
the summed usage column; output rows are the distinct key values in
ascending sorted order, each with the sum of its partition's usages. -/
theorem C5_grouping_semantics (df : DataFrame) (key : String)
    (hk : key ∈ df.cols) (hu : "usage_percent" ∈ df.cols) :
    ∃ g, groupbySum df key = .ok g
      ∧ g.cols = [key, "usage_percent"]
      ∧ (g.rows.map (fun r => r.getD 0 default)).Pairwise (fun a b => cellLe a b = true)
      ∧ (∀ k, k ∈ g.rows.map (fun r => r.getD 0 default) ↔ k ∈ colValues df key)
      ∧ (g.rows.map (fun r => r.getD 0 default)).Nodup
      ∧ (∀ r ∈ g.rows, r = [r.getD 0 default,
          cellSumList ((df.rows.filter (fun row =>
              decide (row.getD (colIdx df key) default = r.getD 0 default))).map
            (fun row => row.getD (colIdx df "usage_percent") default))]) := by
  refine ⟨_, by unfold groupbySum; rw [if_pos ⟨hk, hu⟩], rfl, ?_, ?_, ?_, ?_⟩
  all_goals
    simp only [List.map_map]
  · have hkeys : ((fun r : Row => r.getD 0 default)
        ∘ (fun k => [k, cellSumList ((df.rows.filter (fun row =>
            decide (row.getD (colIdx df key) default = k))).map
          (fun row => row.getD (colIdx df "usage_percent") default))]))
        = id := by
      funext k
      simp
    rw [hkeys, List.map_id]
    exact List.sorted_insertionSort _ _
  · intro k
    have hkeys : ((fun r : Row => r.getD 0 default)
        ∘ (fun k => [k, cellSumList ((df.rows.filter (fun row =>
            decide (row.getD (colIdx df key) default = k))).map
          (fun row => row.getD (colIdx df "usage_percent") default))]))
        = id := by
      funext k
      simp
    rw [hkeys, List.map_id]
    exact mem_groupSortedKeys df key k
  · have hkeys : ((fun r : Row => r.getD 0 default)
        ∘ (fun k => [k, cellSumList ((df.rows.filter (fun row =>
            decide (row.getD (colIdx df key) default = k))).map
          (fun row => row.getD (colIdx df "usage_percent") default))]))
        = id := by
      funext k
      simp
    rw [hkeys, List.map_id]
    exact nodup_groupSortedKeys df key
  · intro r hr
    obtain ⟨k, _, rfl⟩ := List.mem_map.1 hr
    simp

/-- Claim C5 as stated is false on the code: grouping `dfGroupOrder` (key
values appearing in the order b, a) by os_version yields partitions in
ascending sorted key order a, b — not first-appearance order b, a — and the
grouped rows carry no `device_model` sibling attribute at all. -/
theorem C5_counterexample :
    groupbySum dfGroupOrder "os_version"
      = .ok ⟨["os_version", "usage_percent"],
          [[.str "a", .num 20], [.str "b", .num 30]]⟩
    ∧ uniqueList (colValues dfGroupOrder "os_version") = [Cell.str "b", Cell.str "a"]
    ∧ ([[Cell.str "a", Cell.num 20], [Cell.str "b", Cell.num 30]] : List Row)
        ≠ [[Cell.str "b", Cell.num 30], [Cell.str "a", Cell.num 20]]
    ∧ "device_model" ∉ ["os_version", "usage_percent"] := by
  refine ⟨?_, ?_, ?_, ?_⟩ <;> with_unfolding_all decide

/-- Witness for the amended C5 at `dfGroupOrder` grouped by os_version. -/
theorem C5_witness :
    ∃ g, groupbySum dfGroupOrder "os_version" = .ok g
      ∧ g.cols = ["os_version", "usage_percent"]
      ∧ (g.rows.map (fun r => r.getD 0 default)).Pairwise (fun a b => cellLe a b = true)
      ∧ (∀ k, k ∈ g.rows.map (fun r => r.getD 0 default)
          ↔ k ∈ colValues dfGroupOrder "os_version")
      ∧ (g.rows.map (fun r => r.getD 0 default)).Nodup
      ∧ (∀ r ∈ g.rows, r = [r.getD 0 default,
          cellSumList ((dfGroupOrder.rows.filter (fun row =>
              decide (row.getD (colIdx dfGroupOrder "os_version") default
                = r.getD 0 default))).map
            (fun row => row.getD (colIdx dfGroupOrder "usage_percent") default))]) :=
  C5_grouping_semantics dfGroupOrder "os_version"
    (by with_unfolding_all decide) (by with_unfolding_all decide)

/-- Reading the usage column of a two-column `[key, usage]` frame whose
rows are built as `[k, f k]`. -/
theorem sumColQ_keyUsageFrame (key : String) (hne : key ≠ "usage_percent")
    (f : Cell → Cell) (ks : List Cell) :
    sumColQ ⟨[key, "usage_percent"], ks.map (fun k => [k, f k])⟩ "usage_percent"
      = (ks.map (fun k => cellRat (f k))).sum := by
  unfold sumColQ colValues
  have hidx : colIdx ⟨[key, "usage_percent"], ks.map (fun k => [k, f k])⟩
      "usage_percent" = 1 := by
    simp [colIdx, List.findIdx_cons, hne]
  rw [hidx]
  dsimp only
  rw [List.map_map, List.map_map]
  apply congrArg List.sum
  apply List.map_congr_left
  intro k _
  simp

/-- Core of claim C8: `groupbySum` preserves the usage total exactly (in
the rational model of floats). -/
theorem sumColQ_groupbySum (df : DataFrame) (key : String)
    (hk : key ∈ df.cols) (hu : "usage_percent" ∈ df.cols)
    (hne : key ≠ "usage_percent")
    (hnum : ∀ c ∈ colValues df "usage_percent", c.isNum = true) :
    ∃ g, groupbySum df key = .ok g
      ∧ sumColQ g "usage_percent" = sumColQ df "usage_percent" := by
  refine ⟨_, by unfold groupbySum; rw [if_pos ⟨hk, hu⟩], ?_⟩
  rw [sumColQ_keyUsageFrame key hne _ _]
  have hcong : ∀ k ∈ List.insertionSort (fun a b : Cell => cellLe a b = true)
      (uniqueList (colValues df key)),
      cellRat (cellSumList ((df.rows.filter (fun row =>
          decide (row.getD (colIdx df key) default = k))).map
        (fun row => row.getD (colIdx df "usage_percent") default)))
      = ((df.rows.filter (fun row => decide (row.getD (colIdx df key) default = k))).map
          (fun row => cellRat (row.getD (colIdx df "usage_percent") default))).sum := by
    intro k _
    rw [cellSumList_num, List.map_map]
    · rfl
    · intro c hc
      obtain ⟨row, hrowm, rfl⟩ := List.mem_map.1 hc
      exact hnum _ (List.mem_map.2 ⟨row, (List.mem_filter.1 hrowm).1, rfl⟩)
  rw [List.map_congr_left hcong]
  have hfib := sum_fibers (fun row : Row => row.getD (colIdx df key) default)
    (fun row : Row => cellRat (row.getD (colIdx df "usage_percent") default))
    df.rows
    (List.insertionSort (fun a b : Cell => cellLe a b = true)
      (uniqueList (colValues df key)))
    (nodup_groupSortedKeys df key)
    (fun r hr => (mem_groupSortedKeys df key _).2 (List.mem_map.2 ⟨r, hr, rfl⟩))
  have hfinal : (df.rows.map
      (fun row => cellRat (row.getD (colIdx df "usage_percent") default))).sum
      = sumColQ df "usage_percent" := by
    unfold sumColQ colValues
    rw [List.map_map]
    rfl
  exact hfib.trans hfinal

/-! The analytics grouping stage, case by case -/

theorem analyticsPrepared_recognized (df : DataFrame) (k : String)
    (hk : k ∈ groupKeys) (hkomv : k ≠ "os_major_version") :
    analyticsPrepared (some k) df = groupbySum df k := by
  unfold analyticsPrepared
  rw [if_neg (by simp [hkomv])]
  simp [hk]

theorem analyticsPrepared_osMajor (df : DataFrame) (hos : "os_version" ∈ df.cols) :
    analyticsPrepared (some "os_major_version") df
      = groupbySum (setCol df "os_major_version"
          ((colValues df "os_version").map (fun c => Cell.str (osMajor (cellToString c)))))
        "os_major_version" := by
  unfold analyticsPrepared addOsMajor
  rw [if_pos rfl, if_pos hos]
  simp [groupKeys]

theorem analyticsPrepared_unrecognized (df : DataFrame) (key : Option String)
    (hk : ∀ k, key = some k → k ∉ groupKeys) :
    analyticsPrepared key df = .ok df := by
  unfold analyticsPrepared
  cases key with
  | none => simp
  | some k =>
    have hk' := hk k rfl
    have hkomv : k ≠ "os_major_version" := by
      rintro rfl
      exact hk' (by simp [groupKeys])
    rw [if_neg (by simp [hkomv])]
    simp [hk']

/-- Claim C8: for every recognized grouping key, the summed usage over the
grouped rows equals the summed usage over the original rows, exactly in
the rational model. -/
theorem C8_grouping_preserves_total (df : DataFrame) (key : String)
    (hkey : key ∈ groupKeys) (hrect : df.Rect)
    (hdm : "device_model" ∈ df.cols) (hos : "os_version" ∈ df.cols)
    (hup : "usage_percent" ∈ df.cols) (homv : "os_major_version" ∉ df.cols)
    (hnum : usageNumeric df = true) :
    ∃ g, analyticsPrepared (some key) df = .ok g
      ∧ sumColQ g "usage_percent" = sumColQ df "usage_percent" := by
  have hnumv : ∀ c ∈ colValues df "usage_percent", c.isNum = true :=
    fun c hc => List.all_eq_true.1 hnum c hc
  simp only [groupKeys, List.mem_cons, List.not_mem_nil, or_false] at hkey
  rcases hkey with rfl | rfl | rfl
  · obtain ⟨g, hg, hsum⟩ := sumColQ_groupbySum df "device_model" hdm hup (by decide) hnumv
    refine ⟨g, ?_, hsum⟩
    rw [analyticsPrepared_recognized df "device_model" (by simp [groupKeys]) (by decide)]
    exact hg
  · obtain ⟨g, hg, hsum⟩ := sumColQ_groupbySum df "os_version" hos hup (by decide) hnumv
    refine ⟨g, ?_, hsum⟩
    rw [analyticsPrepared_recognized df "os_version" (by simp [groupKeys]) (by decide)]
    exact hg
  · have hlen : ((colValues df "os_version").map
        (fun c => Cell.str (osMajor (cellToString c)))).length = df.rows.length := by
      rw [List.length_map, length_colValues]
    have hcv : colValues (setCol df "os_major_version"
        ((colValues df "os_version").map (fun c => Cell.str (osMajor (cellToString c)))))
        "usage_percent" = colValues df "usage_percent" :=
      colValues_setCol_append_of_mem homv hrect hlen hup
    obtain ⟨g, hg, hsum⟩ := sumColQ_groupbySum
      (setCol df "os_major_version"
        ((colValues df "os_version").map (fun c => Cell.str (osMajor (cellToString c)))))
      "os_major_version"
      (mem_setCol_cols_self _ _ _) (mem_setCol_cols_of_mem _ _ hup) (by decide)
      (by rw [hcv]; exact hnumv)
    refine ⟨g, ?_, ?_⟩
    · rw [analyticsPrepared_osMajor df hos]
      exact hg
    · rw [hsum]
      unfold sumColQ
      rw [hcv]

/-- Witness for C8: grouping `dfDupModel` by device_model preserves the
usage total. -/
theorem C8_witness :
    ∃ g, analyticsPrepared (some "device_model") dfDupModel = .ok g
      ∧ sumColQ g "usage_percent" = sumColQ dfDupModel "usage_percent" :=
  C8_grouping_preserves_total dfDupModel "device_model"
    (by with_unfolding_all decide) (by with_unfolding_all decide)
    (by with_unfolding_all decide) (by with_unfolding_all decide)
    (by with_unfolding_all decide) (by with_unfolding_all decide)
    (by with_unfolding_all decide)

/-! The analytics endpoint -/

theorem selectCols_ok_of_mem (df : DataFrame) (names : List String)
    (h : ∀ n ∈ names, n ∈ df.cols) :
    selectCols df names
      = .ok ⟨names, df.rows.map
          (fun r => names.map (fun n => r.getD (colIdx df n) default))⟩ := by
  have hall : names.all (fun n => decide (n ∈ df.cols)) = true := by
    rw [List.all_eq_true]
    intro n hn
    simpa using h n hn
  unfold selectCols
  rw [if_pos hall]

theorem selectCols_cols_shape (df : DataFrame) (names : List String)
    (h : ∀ n ∈ names, n ∈ df.cols) :
    ∃ rows, selectCols df names = .ok ⟨names, rows⟩ :=
  ⟨_, selectCols_ok_of_mem df names h⟩

theorem groupbySum_cols_shape (df : DataFrame) (key : String)
    (hkc : key ∈ df.cols) (hu : "usage_percent" ∈ df.cols) :
    ∃ rows, groupbySum df key = .ok ⟨[key, "usage_percent"], rows⟩ := by
  unfold groupbySum
  rw [if_pos ⟨hkc, hu⟩]
  exact ⟨_, rfl⟩

/-- Claim C9: any grouping key outside the three recognized values
(including no key) is treated as no grouping: the analytics pipeline runs
on the untouched frame, raises no error on a valid dataset, and the
derived os_major_version column appears in no output view. -/
theorem C9_unrecognized_key_no_grouping (df : DataFrame) (key : Option String)
    (hk : ∀ k, key = some k → k ∉ groupKeys)
    (hdm : "device_model" ∈ df.cols) (hos : "os_version" ∈ df.cols)
    (hup : "usage_percent" ∈ df.cols) (homv : "os_major_version" ∉ df.cols) :
    analyticsPrepared key df = .ok df
    ∧ ∃ res, analytics key df = .ok res
        ∧ res.usage_distribution.cols = df.cols
        ∧ res.usage_distribution.rows.Perm df.rows
        ∧ res.cumulative_curve.cols = matrixCols
        ∧ res.os_version_breakdown.cols = ["os_version", "usage_percent"]
        ∧ "os_major_version" ∉ res.usage_distribution.cols
        ∧ "os_major_version" ∉ res.cumulative_curve.cols
        ∧ "os_major_version" ∉ res.os_version_breakdown.cols := by
  have hprep := analyticsPrepared_unrecognized df key hk
  have hselmem : ∀ n ∈ matrixCols,
      n ∈ (setCol (sortValuesDesc df "usage_percent") "cumulative_coverage"
        (cumsumCells (colValues (sortValuesDesc df "usage_percent") "usage_percent"))).cols := by
    intro n hn
    simp only [matrixCols, List.mem_cons, List.not_mem_nil, or_false] at hn
    rcases hn with rfl | rfl | rfl | rfl
    · exact mem_setCol_cols_of_mem _ _ (by exact hdm)
    · exact mem_setCol_cols_of_mem _ _ (by exact hos)
    · exact mem_setCol_cols_of_mem _ _ (by exact hup)
    · exact mem_setCol_cols_self _ _ _
  obtain ⟨curveRows, hsel⟩ := selectCols_cols_shape
    (setCol (sortValuesDesc df "usage_percent") "cumulative_coverage"
      (cumsumCells (colValues (sortValuesDesc df "usage_percent") "usage_percent")))
    matrixCols hselmem
  obtain ⟨gRows, hgok⟩ := groupbySum_cols_shape df "os_version" hos hup
  have hana : analytics key df = .ok
      ⟨sortValuesDesc df "usage_percent", ⟨matrixCols, curveRows⟩,
        sortValuesDesc ⟨["os_version", "usage_percent"], gRows⟩ "usage_percent"⟩ := by
    unfold analytics
    rw [hprep]
    dsimp only
    rw [if_pos hup, hsel]
    dsimp only
    rw [hgok]
  have h1 : "os_major_version" ∉ matrixCols := by decide
  have h2 : "os_major_version" ∉ ["os_version", "usage_percent"] := by decide
  exact ⟨hprep, ⟨_, hana, rfl, sortValuesDesc_rows_perm df _, rfl, rfl, homv, h1, h2⟩⟩

/-- Witness for C9 on `dfOneRow` with the unrecognized key "brand". -/
theorem C9_witness :
    analyticsPrepared (some "brand") dfOneRow = .ok dfOneRow
    ∧ ∃ res, analytics (some "brand") dfOneRow = .ok res
        ∧ res.usage_distribution.cols = dfOneRow.cols
        ∧ res.usage_distribution.rows.Perm dfOneRow.rows
        ∧ res.cumulative_curve.cols = matrixCols
        ∧ res.os_version_breakdown.cols = ["os_version", "usage_percent"]
        ∧ "os_major_version" ∉ res.usage_distribution.cols
        ∧ "os_major_version" ∉ res.cumulative_curve.cols
        ∧ "os_major_version" ∉ res.os_version_breakdown.cols :=
  C9_unrecognized_key_no_grouping dfOneRow (some "brand")
    (fun k hkeq => by
      injection hkeq with h
      subst h
      with_unfolding_all decide)
    (by with_unfolding_all decide) (by with_unfolding_all decide)
    (by with_unfolding_all decide) (by with_unfolding_all decide)

/-- Claim C6 is wrong about the code: on a valid one-row dataset, any
requested grouping drops the descriptive columns the later analytics steps
select, so the endpoint raises `KeyError` instead of completing — for all
three recognized keys. -/
theorem C6_grouped_analytics_raises :
    missingCols dfOneRow = [] ∧ usageNumeric dfOneRow = true
    ∧ analytics (some "device_model") dfOneRow = .error "KeyError: column not found"
    ∧ analytics (some "os_version") dfOneRow = .error "KeyError: column not found"
    ∧ analytics (some "os_major_version") dfOneRow
        = .error "KeyError: column not found" := by
  refine ⟨?_, ?_, ?_, ?_, ?_⟩ <;> with_unfolding_all decide

/-- Claim C4 as stated is false: the analytics endpoint performs no schema
or dtype validation.  On a dataset whose usage_percent column is
non-numeric — which the coverage endpoint rejects — analytics returns a
normal result, lexicographically sorted with string concatenation as the
cumulative sum. -/
theorem C4_counterexample :
    usageNumeric dfBadUsage = false
    ∧ upload_csv dfBadUsage 90 = .error .usageNotNumeric
    ∧ analytics none dfBadUsage = .ok
        ⟨⟨["device_model", "os_version", "usage_percent"],
          [[.str "A", .str "1.0", .str "abc"]]⟩,
         ⟨matrixCols, [[.str "A", .str "1.0", .str "abc", .str "abc"]]⟩,
         ⟨["os_version", "usage_percent"], [[.str "1.0", .str "abc"]]⟩⟩ := by
  refine ⟨?_, ?_, ?_⟩ <;> with_unfolding_all decide

/-- Claim C4 amended: only the coverage endpoint validates.  It rejects a
missing required column with the schema error and a non-numeric
usage_percent column with the dtype validation error, in that order,
before computing anything; no partial result is produced. -/
theorem C4_upload_validates (df : DataFrame) (t : ℚ) :
    (missingCols df ≠ [] → upload_csv df t = .error (.missingColumns (missingCols df)))
    ∧ (missingCols df = [] → usageNumeric df = false →
        upload_csv df t = .error .usageNotNumeric) := by
  constructor
  · intro h
    unfold upload_csv
    rw [if_pos h]
  · intro h1 h2
    unfold upload_csv
    rw [if_neg (by simp [h1]), if_pos h2]

/-- Witness for the amended C4 at a frame missing device_model and a frame
with a non-numeric usage column. -/
theorem C4_witness :
    upload_csv dfNoModel 90 = .error (.missingColumns (missingCols dfNoModel))
    ∧ upload_csv dfBadUsage 90 = .error .usageNotNumeric :=
  ⟨(C4_upload_validates dfNoModel 90).1 (by with_unfolding_all decide),
   (C4_upload_validates dfBadUsage 90).2 (by with_unfolding_all decide)
     (by with_unfolding_all decide)⟩

/-- Claim C3 context: the sort contract of line 76 — a usage-descending
permutation — provably does not determine the relative order of rows with
equal usage: on `dfTie` both tie orders satisfy it.  Stability is an extra
property that only an explicit stable sort kind would guarantee, and the
code requests none. -/
theorem C3_sort_contract_allows_both_tie_orders :
    descUsageSortSpec dfTie
      [[Cell.str "A", Cell.str "1.0", Cell.num 50],
       [Cell.str "B", Cell.str "2.0", Cell.num 50]]
    ∧ descUsageSortSpec dfTie
      [[Cell.str "B", Cell.str "2.0", Cell.num 50],
       [Cell.str "A", Cell.str "1.0", Cell.num 50]]
    ∧ ([[Cell.str "A", Cell.str "1.0", Cell.num 50],
        [Cell.str "B", Cell.str "2.0", Cell.num 50]] : List Row)
        ≠ [[Cell.str "B", Cell.str "2.0", Cell.num 50],
           [Cell.str "A", Cell.str "1.0", Cell.num 50]] := by
  unfold descUsageSortSpec
  refine ⟨⟨?_, ?_⟩, ⟨?_, ?_⟩, ?_⟩ <;> with_unfolding_all decide

end DeviceIQ
